import Mathlib

/-!
Verification of the osutify scanner, metadata cache, playback clock,
play-mode policy and cache persistence, as a shallow embedding of
`src/osu_mp3_browser/ui.py` (with `audio.py` / `config.py` helpers).

Python strings are sequences of code points, so filenames are embedded as
`List Char` (their lexicographic order is Python's string order); wall-clock
times, file sizes, modification times and durations are rationals (Python
floats/ints, no overflow is involved at these magnitudes).
-/

namespace Osutify

/-- A filename or path, as its sequence of code points. -/
abbrev FileName := List Char

/-! ### Directory scanner (`scan_and_populate`, ui.py lines 1871-1918)

`SUPPORTED_AUDIO_EXTS = ('.mp3', '.ogg')` (config.py line 6); the scan takes
the first filename in `sorted(files)` whose lowercased name ends with a
supported extension. -/

/-- `any(fn.lower().endswith(ext) for ext in SUPPORTED_AUDIO_EXTS)`. -/
def isSupportedAudio (fn : FileName) : Bool :=
  ".mp3".data.isSuffixOf (fn.map Char.toLower) ||
    ".ogg".data.isSuffixOf (fn.map Char.toLower)

/-- `for fn in sorted(files): if any(...): first_fn = fn; break` —
the first supported filename of the lexicographically sorted listing. -/
def firstAudioFile (files : List FileName) : Option FileName :=
  (List.insertionSort (· ≤ ·) files).find? isSupportedAudio

/-! ### Metadata records and the fingerprint cache -/

/-- The metadata dict for one audio file: the tag fields written by
`get_mp3_metadata` (metadata.py) plus the cache fingerprint markers
`__mtime` / `__size` stashed by the scanner. A `none` field is an absent
dict key. -/
structure Meta where
  title : Option FileName := none
  artist : Option FileName := none
  album : Option FileName := none
  duration : Option ℚ := none
  mtime : Option ℚ := none
  size : Option ℚ := none
deriving DecidableEq

/-- Python truthiness of the metadata dict (`if cached and ...`):
a dict is truthy iff it has at least one key. -/
def Meta.nonempty (m : Meta) : Bool :=
  m.title.isSome || m.artist.isSome || m.album.isSome ||
    m.duration.isSome || m.mtime.isSome || m.size.isSome

/-- ui.py line 1893: `cached and mtime is not None and size is not None and
cached.get('__mtime') == mtime and cached.get('__size') == size`. -/
def cacheHit (cached : Option Meta) (mtime size : Option ℚ) : Bool :=
  match cached, mtime, size with
  | some c, some m, some s =>
      c.nonempty && (c.mtime == some m) && (c.size == some s)
  | _, _, _ => false

/-- Outcome of processing one folder in the scan loop. `readerInvoked`
records whether `get_mp3_metadata` ran; `yielded` is the track handed to
`_add_discovered_file`, `none` when the folder was skipped or excluded. -/
structure FolderScan where
  selected : Option FileName
  metaUsed : Option Meta
  dur : ℚ
  readerInvoked : Bool
  excludedShort : Bool
  yielded : Option (FileName × Meta)
deriving DecidableEq

/-- The tail of one scan-loop iteration (ui.py lines 1912-1918): the
minimum-duration filter `if dur and dur < min_d: excluded_short += 1;
continue` and the yield to `_add_discovered_file`. -/
def finishFolder (fn : FileName) (meta : Meta) (dur : ℚ) (hit : Bool)
    (minD : ℚ) : FolderScan :=
  if dur ≠ 0 ∧ dur < minD then ⟨some fn, some meta, dur, !hit, true, none⟩
  else ⟨some fn, some meta, dur, !hit, false, some (fn, meta)⟩

/-- Scan-loop body (ui.py lines 1881-1918) once a file `fn` has been
selected. `stat` is the `(st_mtime, st_size)` of the selected file (`none`
when `stat()` raised); `cached` is `self._metadata.get(key)`; `reader` is
the dict `get_mp3_metadata(full)` would return; `ensureDur` is the value
`ensure_duration(full, ...)` would return (`0` for unknown); `minD` is
`self.min_duration_var.get()`. -/
def scanSelected (fn : FileName) (stat : Option (ℚ × ℚ))
    (cached : Option Meta) (reader : Meta) (ensureDur : ℚ) (minD : ℚ) :
    FolderScan :=
  let mtime : Option ℚ := stat.map Prod.fst
  let size : Option ℚ := stat.map Prod.snd
  let hit := cacheHit cached mtime size
  let meta0 : Meta :=
    if hit then cached.getD {} else
      { reader with
        mtime := if mtime.isSome then mtime else reader.mtime,
        size := if size.isSome then size else reader.size }
  let dur0 : ℚ := (meta0.duration).getD 0
  let dur : ℚ := if dur0 = 0 then ensureDur else dur0
  let meta : Meta :=
    if dur0 = 0 ∧ dur ≠ 0 then { meta0 with duration := some dur } else meta0
  finishFolder fn meta dur hit minD

/-- One iteration of the scan loop (ui.py lines 1872-1918) for a single
folder: select the first supported filename, then process it. -/
def scanFolder (files : List FileName) (stat : Option (ℚ × ℚ))
    (cached : Option Meta) (reader : Meta) (ensureDur : ℚ) (minD : ℚ) :
    FolderScan :=
  match firstAudioFile files with
  | none => ⟨none, none, 0, false, false, none⟩
  | some fn => scanSelected fn stat cached reader ensureDur minD

/-! ### Helper lemmas about sorted selection -/

lemma find?_sorted_le {α : Type} [LinearOrder α] (p : α → Bool) :
    ∀ l : List α, l.Sorted (· ≤ ·) → ∀ m, l.find? p = some m →
      ∀ x ∈ l, p x = true → m ≤ x := by
  intro l
  induction l with
  | nil => intro _ m h; simp [List.find?] at h
  | cons a t ih =>
    intro hs m hfind x hx hpx
    rcases List.sorted_cons.mp hs with ⟨ha, ht⟩
    by_cases hpa : p a = true
    · rw [List.find?_cons_of_pos _ hpa] at hfind
      cases hfind
      rcases List.mem_cons.mp hx with rfl | hxt
      · exact le_refl _
      · exact ha x hxt
    · rw [List.find?_cons_of_neg _ (by simpa using hpa)] at hfind
      rcases List.mem_cons.mp hx with rfl | hxt
      · exact absurd hpx hpa
      · exact ih ht m hfind x hxt hpx

lemma firstAudioFile_perm {files filesR : List FileName}
    (hperm : files.Perm filesR) :
    firstAudioFile files = firstAudioFile filesR := by
  unfold firstAudioFile
  have h1 : List.insertionSort (· ≤ ·) files = List.insertionSort (· ≤ ·) filesR :=
    List.eq_of_perm_of_sorted
      ((List.perm_insertionSort _ _).trans
        (hperm.trans (List.perm_insertionSort _ _).symm))
      (List.sorted_insertionSort _ _) (List.sorted_insertionSort _ _)
  rw [h1]

/-- C1: for every folder listing containing at least one file whose name ends
with `.mp3` or `.ogg` (case-insensitive), the scanner's selection is `some`
of the lexicographically-least qualifying filename of the listing, and the
selection does not depend on the order the filesystem lists the entries. -/
theorem scanner_selects_lex_first_audio (files filesR : List FileName)
    (hperm : files.Perm filesR) (fn : FileName) (hfn : fn ∈ files)
    (hsup : isSupportedAudio fn = true) :
    firstAudioFile files = firstAudioFile filesR ∧
    ∃ m, firstAudioFile files = some m ∧ m ∈ files ∧ isSupportedAudio m = true ∧
      ∀ g ∈ files, isSupportedAudio g = true → m ≤ g := by
  refine ⟨firstAudioFile_perm hperm, ?_⟩
  have hmem : fn ∈ List.insertionSort (· ≤ ·) files :=
    (List.mem_insertionSort _).mpr hfn
  have hsome : (firstAudioFile files).isSome := by
    unfold firstAudioFile
    rw [List.find?_isSome]
    exact ⟨fn, hmem, hsup⟩
  obtain ⟨m, hm⟩ := Option.isSome_iff_exists.mp hsome
  have hfind : (List.insertionSort (· ≤ ·) files).find? isSupportedAudio = some m := hm
  refine ⟨m, hm, ?_, ?_, ?_⟩
  · exact (List.mem_insertionSort _).mp (List.mem_of_find?_eq_some hfind)
  · exact List.find?_some hfind
  · intro g hg hgsup
    exact find?_sorted_le isSupportedAudio _ (List.sorted_insertionSort _ _) m hfind
      g ((List.mem_insertionSort _).mpr hg) hgsup

/-- Witness for C1 at a concrete folder listing and a permutation of it. -/
theorem scanner_selects_lex_first_audio_witness :
    firstAudioFile ["cc.txt".data, "b.OGG".data, "a.mp3".data] =
      firstAudioFile ["a.mp3".data, "b.OGG".data, "cc.txt".data] ∧
    ∃ m, firstAudioFile ["cc.txt".data, "b.OGG".data, "a.mp3".data] = some m ∧
      m ∈ [("cc.txt".data : FileName), "b.OGG".data, "a.mp3".data] ∧
      isSupportedAudio m = true ∧
      ∀ g ∈ [("cc.txt".data : FileName), "b.OGG".data, "a.mp3".data],
        isSupportedAudio g = true → m ≤ g :=
  scanner_selects_lex_first_audio _ _ (by decide) "b.OGG".data (by decide) (by decide)

lemma cacheHit_some_of_match (c : Meta) (m s : ℚ)
    (hm : c.mtime = some m) (hs : c.size = some s) :
    cacheHit (some c) (some m) (some s) = true := by
  simp [cacheHit, Meta.nonempty, hm, hs]

lemma cacheHit_some_of_mismatch (c : Meta) (m s mLive sLive : ℚ)
    (hm : c.mtime = some m) (hs : c.size = some s)
    (hne : ¬(m = mLive ∧ s = sLive)) :
    cacheHit (some c) (some mLive) (some sLive) = false := by
  simp only [cacheHit, hm, hs, Bool.and_eq_false_iff]
  rcases not_and_or.mp hne with h | h
  · left; right; simpa [beq_iff_eq] using h
  · right; simpa [beq_iff_eq] using h

lemma finishFolder_readerInvoked (fn : FileName) (meta : Meta) (dur : ℚ)
    (hit : Bool) (minD : ℚ) :
    (finishFolder fn meta dur hit minD).readerInvoked = !hit := by
  unfold finishFolder
  split_ifs <;> rfl

lemma finishFolder_metaUsed (fn : FileName) (meta : Meta) (dur : ℚ)
    (hit : Bool) (minD : ℚ) :
    (finishFolder fn meta dur hit minD).metaUsed = some meta := by
  unfold finishFolder
  split_ifs <;> rfl

lemma finishFolder_dur (fn : FileName) (meta : Meta) (dur : ℚ)
    (hit : Bool) (minD : ℚ) :
    (finishFolder fn meta dur hit minD).dur = dur := by
  unfold finishFolder
  split_ifs <;> rfl

lemma finishFolder_excluded_iff (fn : FileName) (meta : Meta) (dur : ℚ)
    (hit : Bool) (minD : ℚ) :
    (finishFolder fn meta dur hit minD).excludedShort = true ↔
      (dur ≠ 0 ∧ dur < minD) := by
  unfold finishFolder
  split_ifs with h <;> simp [h]

lemma finishFolder_yielded_none_iff (fn : FileName) (meta : Meta) (dur : ℚ)
    (hit : Bool) (minD : ℚ) :
    (finishFolder fn meta dur hit minD).yielded = none ↔
      (finishFolder fn meta dur hit minD).excludedShort = true := by
  unfold finishFolder
  split_ifs <;> simp

lemma scanFolder_of_selected {files : List FileName} {fn : FileName}
    (hsel : firstAudioFile files = some fn) (stat : Option (ℚ × ℚ))
    (cached : Option Meta) (reader : Meta) (ensureDur minD : ℚ) :
    scanFolder files stat cached reader ensureDur minD =
      scanSelected fn stat cached reader ensureDur minD := by
  unfold scanFolder
  rw [hsel]

/-- The duration the scan settles on after a cache hit on `c`
(`dur = meta.get('duration') or 0`, then `ensure_duration` when falsy). -/
def hitDur (c : Meta) (ensureDur : ℚ) : ℚ :=
  if c.duration.getD 0 = 0 then ensureDur else c.duration.getD 0

/-- The metadata dict after a cache hit on `c`, with the duration merged in
when `ensure_duration` recovered one. -/
def hitMeta (c : Meta) (ensureDur : ℚ) : Meta :=
  if c.duration.getD 0 = 0 ∧ hitDur c ensureDur ≠ 0 then
    { c with duration := some (hitDur c ensureDur) }
  else c

lemma scanSelected_of_hit (fn : FileName) (stat : Option (ℚ × ℚ)) (c : Meta)
    (reader : Meta) (ensureDur minD : ℚ)
    (hhit : cacheHit (some c) (stat.map Prod.fst) (stat.map Prod.snd) = true) :
    scanSelected fn stat (some c) reader ensureDur minD =
      finishFolder fn (hitMeta c ensureDur) (hitDur c ensureDur) true minD := by
  simp only [scanSelected, hhit, if_true, Option.getD_some, hitMeta, hitDur]

lemma scanSelected_readerInvoked_of_miss (fn : FileName)
    (stat : Option (ℚ × ℚ)) (cached : Option Meta) (reader : Meta)
    (ensureDur minD : ℚ)
    (hhit : cacheHit cached (stat.map Prod.fst) (stat.map Prod.snd) = false) :
    (scanSelected fn stat cached reader ensureDur minD).readerInvoked = true := by
  simp only [scanSelected, hhit, if_false, finishFolder_readerInvoked]
  rfl

/-- C2: when the scan reaches a file whose cache entry stores `__mtime` `m`
and `__size` `s` and the live `stat` returns exactly `(m, s)`, the cached
metadata is reused (all tag fields and the fingerprint come from the cache,
and the cached duration when it is known/non-zero) and `get_mp3_metadata` is
not invoked; if either fingerprint half differs, or there is no cache entry,
the reader is invoked. -/
theorem cache_fingerprint_gates_reader
    (files : List FileName) (fn : FileName)
    (hsel : firstAudioFile files = some fn)
    (c : Meta) (m s mLive sLive : ℚ)
    (hm : c.mtime = some m) (hs : c.size = some s)
    (reader : Meta) (ensureDur minD : ℚ) :
    ((m = mLive ∧ s = sLive) →
      (scanFolder files (some (mLive, sLive)) (some c) reader ensureDur
          minD).readerInvoked = false ∧
      ∃ mu, (scanFolder files (some (mLive, sLive)) (some c) reader ensureDur
          minD).metaUsed = some mu ∧
        mu.title = c.title ∧ mu.artist = c.artist ∧ mu.album = c.album ∧
        mu.mtime = c.mtime ∧ mu.size = c.size ∧
        (c.duration.getD 0 ≠ 0 → mu.duration = c.duration)) ∧
    (¬(m = mLive ∧ s = sLive) →
      (scanFolder files (some (mLive, sLive)) (some c) reader ensureDur
          minD).readerInvoked = true) ∧
    (scanFolder files (some (mLive, sLive)) none reader ensureDur
        minD).readerInvoked = true := by
  refine ⟨?_, ?_, ?_⟩
  · rintro ⟨rfl, rfl⟩
    have hhit : cacheHit (some c) ((some (m, s)).map Prod.fst)
        ((some (m, s)).map Prod.snd) = true := by
      simpa using cacheHit_some_of_match c m s hm hs
    rw [scanFolder_of_selected hsel, scanSelected_of_hit _ _ _ _ _ _ hhit]
    refine ⟨by rw [finishFolder_readerInvoked]; rfl, ?_⟩
    refine ⟨_, finishFolder_metaUsed _ _ _ _ _, ?_⟩
    unfold hitMeta
    by_cases hdur : c.duration.getD 0 = 0
    · split_ifs <;> exact ⟨rfl, rfl, rfl, rfl, rfl, fun hk => absurd hdur hk⟩
    · rw [if_neg (fun hk => hdur hk.1)]
      exact ⟨rfl, rfl, rfl, rfl, rfl, fun _ => rfl⟩
  · intro hne
    have hhit : cacheHit (some c) ((some (mLive, sLive)).map Prod.fst)
        ((some (mLive, sLive)).map Prod.snd) = false := by
      simpa using cacheHit_some_of_mismatch c m s mLive sLive hm hs hne
    rw [scanFolder_of_selected hsel]
    exact scanSelected_readerInvoked_of_miss _ _ _ _ _ _ hhit
  · rw [scanFolder_of_selected hsel]
    exact scanSelected_readerInvoked_of_miss _ _ _ _ _ _ rfl

/-- Witness for C2: a matching fingerprint `(5, 7)` reuses the cache and a
mismatching or absent entry re-reads. -/
theorem cache_fingerprint_gates_reader_witness :
    (((5 : ℚ) = 5 ∧ (7 : ℚ) = 7) →
      (scanFolder ["a.mp3".data] (some (5, 7))
          (some { duration := some 100, mtime := some 5, size := some 7 })
          {} 0 30).readerInvoked = false ∧
      ∃ mu, (scanFolder ["a.mp3".data] (some (5, 7))
          (some { duration := some 100, mtime := some 5, size := some 7 })
          {} 0 30).metaUsed = some mu ∧
        mu.title = (none : Option FileName) ∧ mu.artist = none ∧
        mu.album = none ∧ mu.mtime = some 5 ∧ mu.size = some 7 ∧
        ((some (100 : ℚ)).getD 0 ≠ 0 → mu.duration = some 100)) ∧
    (¬((5 : ℚ) = 5 ∧ (7 : ℚ) = 7) →
      (scanFolder ["a.mp3".data] (some (5, 7))
          (some { duration := some 100, mtime := some 5, size := some 7 })
          {} 0 30).readerInvoked = true) ∧
    (scanFolder ["a.mp3".data] (some (5, 7)) none {} 0 30).readerInvoked = true :=
  cache_fingerprint_gates_reader ["a.mp3".data] "a.mp3".data (by decide)
    { duration := some 100, mtime := some 5, size := some 7 }
    5 7 5 7 rfl rfl {} 0 30

/-- The duration re-check of `_add_discovered_file` (ui.py lines
1695-1712): `dur = meta.get('duration') if meta else 0` (dict truthiness),
`ensure_duration` fallback when falsy, then `if dur and dur < min_d` the
file is counted excluded and not added. Returns the settled duration and
the exclusion verdict. -/
def addDiscoveredCheck (meta : Option Meta) (ensureDur minD : ℚ) :
    ℚ × Bool :=
  let dur0 : ℚ :=
    match meta with
    | none => 0
    | some m => if m.nonempty then m.duration.getD 0 else 0
  let dur : ℚ := if dur0 = 0 then ensureDur else dur0
  (dur, decide (dur ≠ 0 ∧ dur < minD))

lemma addDiscoveredCheck_excluded_iff (meta : Option Meta)
    (ensureDur minD : ℚ) :
    ((addDiscoveredCheck meta ensureDur minD).2 = true ↔
      ((addDiscoveredCheck meta ensureDur minD).1 ≠ 0 ∧
        (addDiscoveredCheck meta ensureDur minD).1 < minD)) ∧
    ((addDiscoveredCheck meta ensureDur minD).1 = 0 →
      (addDiscoveredCheck meta ensureDur minD).2 = false) := by
  unfold addDiscoveredCheck
  refine ⟨by simp, ?_⟩
  intro h0
  simp only [decide_eq_false_iff_not, not_and]
  intro hne
  exact absurd h0 hne

/-- C3: once the scan has selected a file and settled its known duration `d`
(`0` encodes unknown), the file is excluded from the emitted results iff
`d` is non-zero and `d < min_duration`; in particular a zero/unknown
duration never excludes the file. The re-check in `_add_discovered_file`
applies the same rule before inserting into the visible list. -/
theorem duration_filter_excludes_iff
    (files : List FileName) (fn : FileName)
    (hsel : firstAudioFile files = some fn)
    (stat : Option (ℚ × ℚ)) (cached : Option Meta) (reader : Meta)
    (ensureDur minD : ℚ) :
    ((scanFolder files stat cached reader ensureDur minD).excludedShort = true ↔
      ((scanFolder files stat cached reader ensureDur minD).dur ≠ 0 ∧
        (scanFolder files stat cached reader ensureDur minD).dur < minD)) ∧
    ((scanFolder files stat cached reader ensureDur minD).yielded = none ↔
      (scanFolder files stat cached reader ensureDur minD).excludedShort = true) ∧
    ((scanFolder files stat cached reader ensureDur minD).dur = 0 →
      (scanFolder files stat cached reader ensureDur minD).excludedShort
        = false) ∧
    (∀ meta2 : Option Meta, ∀ ensureDur2 : ℚ,
      ((addDiscoveredCheck meta2 ensureDur2 minD).2 = true ↔
        ((addDiscoveredCheck meta2 ensureDur2 minD).1 ≠ 0 ∧
          (addDiscoveredCheck meta2 ensureDur2 minD).1 < minD)) ∧
      ((addDiscoveredCheck meta2 ensureDur2 minD).1 = 0 →
        (addDiscoveredCheck meta2 ensureDur2 minD).2 = false)) := by
  obtain ⟨meta, dur, hit, heq⟩ :
      ∃ meta dur hit, scanSelected fn stat cached reader ensureDur minD =
        finishFolder fn meta dur hit minD := ⟨_, _, _, rfl⟩
  rw [scanFolder_of_selected hsel, heq, finishFolder_dur]
  refine ⟨finishFolder_excluded_iff _ _ _ _ _,
    finishFolder_yielded_none_iff _ _ _ _ _, ?_,
    fun meta2 e2 => addDiscoveredCheck_excluded_iff meta2 e2 minD⟩
  intro h0
  unfold finishFolder
  rw [if_neg (fun hk => hk.1 h0)]

/-- Witness for C3 at a concrete folder: duration 10 < 30 is excluded. -/
theorem duration_filter_excludes_iff_witness :
    ((scanFolder ["a.mp3".data] none none { duration := some 10 } 0
        30).excludedShort = true ↔
      ((scanFolder ["a.mp3".data] none none { duration := some 10 } 0
          30).dur ≠ 0 ∧
        (scanFolder ["a.mp3".data] none none { duration := some 10 } 0
            30).dur < 30)) ∧
    ((scanFolder ["a.mp3".data] none none { duration := some 10 } 0
        30).yielded = none ↔
      (scanFolder ["a.mp3".data] none none { duration := some 10 } 0
          30).excludedShort = true) ∧
    ((scanFolder ["a.mp3".data] none none { duration := some 10 } 0
        30).dur = 0 →
      (scanFolder ["a.mp3".data] none none { duration := some 10 } 0
          30).excludedShort = false) ∧
    (∀ meta2 : Option Meta, ∀ ensureDur2 : ℚ,
      ((addDiscoveredCheck meta2 ensureDur2 30).2 = true ↔
        ((addDiscoveredCheck meta2 ensureDur2 30).1 ≠ 0 ∧
          (addDiscoveredCheck meta2 ensureDur2 30).1 < 30)) ∧
      ((addDiscoveredCheck meta2 ensureDur2 30).1 = 0 →
        (addDiscoveredCheck meta2 ensureDur2 30).2 = false)) :=
  duration_filter_excludes_iff ["a.mp3".data] "a.mp3".data (by decide)
    none none { duration := some 10 } 0 30

/-! ### Playback clock, session state and stats (ui.py)

The audio backend exposes only coarse transport controls, so the UI keeps a
manual wall-clock base: `_start_time`, `_pause_time`, `_paused_offset`,
`paused`, `_playing_path`, and the `_stats` dict. Backend call outcomes
(`load_and_play`, `unpause`, the seek methods, `get_pos`, `is_busy`) are
oracles passed in as parameters. -/

/-- One `self._stats[key]` record. -/
structure Stats where
  playCount : ℤ
  secondsListened : ℚ
  lastPlayed : ℚ
deriving DecidableEq

/-- `{"play_count": 0, "seconds_listened": 0.0, "last_played": 0.0}`. -/
def Stats.zero : Stats := ⟨0, 0, 0⟩

/-- The transient playback bookkeeping held on the UI object. -/
structure Session where
  playingPath : Option FileName
  paused : Bool
  startTime : Option ℚ
  pauseTime : Option ℚ
  pausedOffset : ℚ
  stats : FileName → Stats

/-- Python float truthiness (`if self._pause_time:`): false for `None` and
for `0.0`. -/
def optTruthy (x : Option ℚ) : Bool :=
  match x with
  | none => false
  | some v => decide (v ≠ 0)

/-- The manual elapsed-time expression shared by `update_progress` (ui.py
lines 2732-2736) and `_accumulate_current_listen_time` (lines 2770-2775):
`(pause_time - start_time) + paused_offset` while paused with a truthy pause
stamp, `(now - start_time) + paused_offset` otherwise; `0` when
`_start_time` is `None`. -/
def manualElapsed (s : Session) (now : ℚ) : ℚ :=
  match s.startTime with
  | none => 0
  | some st =>
    if s.paused && optTruthy s.pauseTime then
      (s.pauseTime.getD 0 - st) + s.pausedOffset
    else (now - st) + s.pausedOffset

/-- The `update_progress` position computation (ui.py lines 2729-2747):
the manual base when `self._start_time is not None`, else the backend
`get_pos()` fallback `bp`. -/
def posSec (s : Session) (now bp : ℚ) : ℚ :=
  match s.startTime with
  | none => bp
  | some _ => manualElapsed s now

/-- The progress display (ui.py lines 2749-2756): the shown elapsed seconds
and the progress-bar fraction (`min(1.0, pos_sec / total)` when the total is
known/truthy, `0` otherwise). -/
def updateProgressDisplay (s : Session) (now bp total : ℚ) : ℚ × ℚ :=
  if total ≠ 0 then (posSec s now bp, min 1 (posSec s now bp / total))
  else (posSec s now bp, 0)

/-- The body of `_accumulate_current_listen_time` once `self._playing_path`
is known to be `path` (ui.py lines 2768-2786): add `max(0.0, elapsed)` to
the path's `seconds_listened`, then reset the timing base when finalizing. -/
def accumulateSome (s : Session) (path : FileName) (now : ℚ)
    (finalize : Bool) : Session :=
  let upd : Stats :=
    { s.stats path with
      secondsListened :=
        (s.stats path).secondsListened + max 0 (manualElapsed s now) }
  let s1 := { s with stats := fun k => if k = path then upd else s.stats k }
  if finalize then
    { s1 with startTime := none, pauseTime := none, pausedOffset := 0 }
  else s1

/-- `_accumulate_current_listen_time` (ui.py lines 2764-2787). -/
def accumulate (s : Session) (now : ℚ) (finalize : Bool) : Session :=
  match s.playingPath with
  | none => s
  | some path => accumulateSome s path now finalize

/-- `_play_path` (ui.py lines 2001-2049): accumulate the previous track's
listening time, then (when the backend load succeeds) switch the playing
path, reset the manual clock and bump `play_count` / `last_played`. -/
def playPath (s : Session) (path : FileName) (now : ℚ) (loadOk : Bool) :
    Session :=
  let s1 := accumulate s now true
  if !loadOk then s1
  else
    let s2 := { s1 with playingPath := some path, startTime := some now,
                        pauseTime := none, pausedOffset := 0, paused := false }
    let old := s2.stats path
    let upd := { old with playCount := old.playCount + 1, lastPlayed := now }
    { s2 with stats := fun k => if k = path then upd else s2.stats k }

/-- The clamp at the top of `seek_to` (ui.py lines 3074-3076):
`if total and pos_sec > total: pos_sec = total`. -/
def seekClamp (pos total : ℚ) : ℚ :=
  if total ≠ 0 ∧ pos > total then total else pos

/-- `seek_to` (ui.py lines 3069-3098); `total` is the known duration of the
playing file (`0` encodes unknown). The backend seek attempts only touch the
audio device; the session fields are updated unconditionally. -/
def seekTo (s : Session) (pos now total : ℚ) : Session :=
  if s.playingPath = none then s
  else
    { s with startTime := some (now - seekClamp pos total), pauseTime := none,
             pausedOffset := 0, paused := false }

/-- The paused position the unpause fallback computes (ui.py lines
2133-2138): `pos_sec = (self._pause_time - self._start_time) +
self._paused_offset` when both timestamps are truthy, else `0`. -/
def resumeFallbackPos (s : Session) : ℚ :=
  if optTruthy s.startTime && optTruthy s.pauseTime then
    (s.pauseTime.getD 0 - s.startTime.getD 0) + s.pausedOffset
  else 0

/-- The tail of the resume branch (ui.py lines 2152-2158): fold the pause
duration into `_start_time` when both timestamps are truthy, then clear
`_pause_time`. -/
def resumeFold (s : Session) (now : ℚ) : Session :=
  if optTruthy s.pauseTime && optTruthy s.startTime then
    { s with
      startTime := some (s.startTime.getD 0 + (now - s.pauseTime.getD 0)),
      pauseTime := none }
  else { s with pauseTime := none }

/-- The resume branch of `toggle_pause` (ui.py lines 2130-2158): native
unpause, else restart-and-seek to the computed paused position; then clear
the paused flag and fold the pause duration. -/
def resumeOp (s : Session) (now : ℚ) (unpauseOk : Bool) (total : ℚ) :
    Session :=
  resumeFold
    { (if unpauseOk then s else seekTo s (resumeFallbackPos s) now total) with
      paused := false } now

/-- `toggle_pause` (ui.py lines 2112-2158). `unpauseOk` is the outcome of
`audio.unpause()`; `total` is the known duration the `seek_to` fallback
reads from the metadata. -/
def togglePause (s : Session) (now : ℚ) (unpauseOk : Bool) (total : ℚ) :
    Session :=
  if s.playingPath = none then s
  else if !s.paused then
    { s with paused := true, pauseTime := some now }
  else resumeOp s now unpauseOk total

/-- `stop` (ui.py lines 2190-2211). -/
def stopOp (s : Session) (now : ℚ) : Session :=
  { accumulate s now true with
    playingPath := none, startTime := none, pauseTime := none,
    pausedOffset := 0, paused := false }

/-- The loop branch of `_on_track_end` (ui.py lines 2271-2284): restart the
backend and reset the manual timing base. -/
def loopRestart (s : Session) (now : ℚ) : Session :=
  { s with startTime := some now, pauseTime := none, pausedOffset := 0 }

/-- One UI-triggered playback operation at wall-clock time `now`. The side
conditions record facts about the call sites: seek positions come from a
click fraction in `[0, 1]` times a known total, and `total` arguments are
duration metadata values; both are nonnegative. -/
inductive Step : Session → ℚ → Session → Prop
  | play (s : Session) (now : ℚ) (path : FileName) (loadOk : Bool) :
      Step s now (playPath s path now loadOk)
  | toggle (s : Session) (now : ℚ) (unpauseOk : Bool) (total : ℚ)
      (htot : 0 ≤ total) : Step s now (togglePause s now unpauseOk total)
  | seek (s : Session) (now pos total : ℚ) (hpos : 0 ≤ pos)
      (htot : 0 ≤ total) : Step s now (seekTo s pos now total)
  | stop (s : Session) (now : ℚ) : Step s now (stopOp s now)
  | accum (s : Session) (now : ℚ) (finalize : Bool) :
      Step s now (accumulate s now finalize)
  | loopEnd (s : Session) (now : ℚ) : Step s now (loopRestart s now)

/-- Reachable `(session, wall-clock)` pairs. `time.time()` readings are
positive and monotone; the initial state has no playing path, no manual
base, zero pause offset and whatever stats were loaded from disk. -/
inductive Reach : Session → ℚ → Prop
  | init (stats0 : FileName → Stats) (t0 : ℚ) (h0 : 0 < t0) :
      Reach ⟨none, false, none, none, 0, stats0⟩ t0
  | step {s : Session} {t : ℚ} (hr : Reach s t) {now : ℚ} (hle : t ≤ now)
      {s2 : Session} (hs : Step s now s2) : Reach s2 now
  | tick {s : Session} {t : ℚ} (hr : Reach s t) {now : ℚ} (hle : t ≤ now) :
      Reach s now

/-- Clock bookkeeping facts every operation maintains: the pause-offset
accumulator is always `0`, the manual base never lies in the future, and a
recorded pause instant lies between the base and now. -/
def ClockInv (s : Session) (t : ℚ) : Prop :=
  s.pausedOffset = 0 ∧
  (∀ st, s.startTime = some st → st ≤ t) ∧
  (∀ st pt, s.startTime = some st → s.pauseTime = some pt → st ≤ pt ∧ pt ≤ t)

lemma ClockInv.mono {s : Session} {t now : ℚ} (h : ClockInv s t)
    (hle : t ≤ now) : ClockInv s now :=
  ⟨h.1, fun st hst => (h.2.1 st hst).trans hle,
   fun st pt hst hpt => ⟨(h.2.2 st pt hst hpt).1, (h.2.2 st pt hst hpt).2.trans hle⟩⟩

lemma accumulateSome_timing (s : Session) (path : FileName) (now : ℚ)
    (fz : Bool) :
    ((accumulateSome s path now fz).pausedOffset = s.pausedOffset ∧
      (accumulateSome s path now fz).startTime = s.startTime ∧
      (accumulateSome s path now fz).pauseTime = s.pauseTime) ∨
    ((accumulateSome s path now fz).pausedOffset = 0 ∧
      (accumulateSome s path now fz).startTime = none ∧
      (accumulateSome s path now fz).pauseTime = none) := by
  cases fz with
  | false => exact Or.inl ⟨rfl, rfl, rfl⟩
  | true => exact Or.inr ⟨rfl, rfl, rfl⟩

lemma clockInv_accumulate {s : Session} {now : ℚ} (h : ClockInv s now)
    (fz : Bool) : ClockInv (accumulate s now fz) now := by
  obtain ⟨h1, h2, h3⟩ := h
  unfold accumulate
  cases hp : s.playingPath with
  | none => exact ⟨h1, h2, h3⟩
  | some path =>
    rcases accumulateSome_timing s path now fz with ⟨g1, g2, g3⟩ | ⟨g1, g2, g3⟩
    · exact ⟨g1.trans h1, fun st hst => h2 st (g2 ▸ hst),
        fun st pt hst hpt => h3 st pt (g2 ▸ hst) (g3 ▸ hpt)⟩
    · refine ⟨g1, ?_, ?_⟩
      · rintro st hst
        rw [g2] at hst
        cases hst
      · rintro st pt hst hpt
        rw [g2] at hst
        cases hst

lemma clockInv_playPath {s : Session} {now : ℚ} (h : ClockInv s now)
    (path : FileName) (loadOk : Bool) :
    ClockInv (playPath s path now loadOk) now := by
  have hacc := clockInv_accumulate h true
  unfold playPath
  cases loadOk with
  | false => exact hacc
  | true =>
    simp only [Bool.not_true, if_false]
    refine ⟨rfl, ?_, ?_⟩
    · rintro st hst
      injection hst with hst
      exact le_of_eq hst.symm
    · rintro st pt _ hpt
      cases hpt

lemma seekClamp_nonneg {pos total : ℚ} (hpos : 0 ≤ pos) (htot : 0 ≤ total) :
    0 ≤ seekClamp pos total := by
  unfold seekClamp
  split_ifs <;> assumption

lemma clockInv_seekTo {s : Session} {now : ℚ} (h : ClockInv s now)
    {pos total : ℚ} (hpos : 0 ≤ pos) (htot : 0 ≤ total) :
    ClockInv (seekTo s pos now total) now := by
  unfold seekTo
  split_ifs with hnone
  · exact h
  · refine ⟨rfl, ?_, ?_⟩
    · rintro st hst
      injection hst with hst
      have hpos2 := seekClamp_nonneg hpos htot
      rw [← hst]
      linarith
    · rintro st pt _ hpt
      exact absurd hpt (by simp)

lemma clockInv_stopOp {s : Session} {now : ℚ} (h : ClockInv s now) :
    ClockInv (stopOp s now) now := by
  refine ⟨rfl, ?_, ?_⟩
  · rintro st hst
    exact absurd hst (by simp [stopOp])
  · rintro st pt hst hpt
    exact absurd hst (by simp [stopOp])

lemma clockInv_loopRestart {s : Session} {now : ℚ} (h : ClockInv s now) :
    ClockInv (loopRestart s now) now := by
  unfold loopRestart
  refine ⟨rfl, ?_, ?_⟩
  · rintro st hst
    injection hst with hst
    exact le_of_eq hst.symm
  · rintro st pt _ hpt
    cases hpt

lemma resumeFallbackPos_nonneg {s : Session} {now : ℚ} (h : ClockInv s now) :
    0 ≤ resumeFallbackPos s := by
  obtain ⟨h1, h2, h3⟩ := h
  unfold resumeFallbackPos
  split_ifs with hcond
  · rcases Bool.and_eq_true_iff.mp hcond with ⟨hstT, hptT⟩
    cases hpt0 : s.pauseTime with
    | none => rw [hpt0] at hptT; exact absurd hptT (by simp [optTruthy])
    | some pt0 =>
      cases hst0 : s.startTime with
      | none => rw [hst0] at hstT; exact absurd hstT (by simp [optTruthy])
      | some st0 =>
        have hlt := (h3 st0 pt0 hst0 hpt0).1
        simp only [hpt0, hst0, Option.getD_some, h1]
        linarith
  · exact le_refl 0

lemma clockInv_resumeFold {s : Session} {now : ℚ}
    (h1 : s.pausedOffset = 0)
    (h2 : ∀ st, s.startTime = some st → st ≤ now)
    (h3 : ∀ st pt, s.startTime = some st → s.pauseTime = some pt →
      st ≤ pt ∧ pt ≤ now) :
    ClockInv (resumeFold s now) now := by
  unfold resumeFold
  split_ifs with hcond
  · rcases Bool.and_eq_true_iff.mp hcond with ⟨hptT, hstT⟩
    cases hpt0 : s.pauseTime with
    | none => rw [hpt0] at hptT; exact absurd hptT (by simp [optTruthy])
    | some pt0 =>
      cases hst0 : s.startTime with
      | none => rw [hst0] at hstT; exact absurd hstT (by simp [optTruthy])
      | some st0 =>
        refine ⟨h1, ?_, ?_⟩
        · rintro st hst
          injection hst with hst
          simp only [hpt0, hst0, Option.getD_some] at hst
          have hlt := (h3 st0 pt0 hst0 hpt0).1
          rw [← hst]
          linarith
        · rintro st pt _ hpt
          exact absurd hpt (by simp)
  · exact ⟨h1, h2, by rintro st pt _ hpt; exact absurd hpt (by simp)⟩

lemma clockInv_resumeOp {s : Session} {now : ℚ} (h : ClockInv s now)
    (unpauseOk : Bool) {total : ℚ} (htot : 0 ≤ total) :
    ClockInv (resumeOp s now unpauseOk total) now := by
  obtain ⟨h1, h2, h3⟩ := h
  unfold resumeOp
  cases unpauseOk with
  | true =>
    simp only [if_true]
    exact clockInv_resumeFold h1 h2 h3
  | false =>
    simp only [if_false]
    have hpos := resumeFallbackPos_nonneg ⟨h1, h2, h3⟩
    have g := clockInv_seekTo ⟨h1, h2, h3⟩ hpos htot
    exact clockInv_resumeFold g.1 g.2.1 g.2.2

lemma clockInv_togglePause {s : Session} {now : ℚ} (h : ClockInv s now)
    (unpauseOk : Bool) {total : ℚ} (htot : 0 ≤ total) :
    ClockInv (togglePause s now unpauseOk total) now := by
  obtain ⟨h1, h2, h3⟩ := h
  unfold togglePause
  split_ifs with hnone hpau
  · exact ⟨h1, h2, h3⟩
  · refine ⟨h1, h2, ?_⟩
    rintro st pt hst hpt
    injection hpt with hpt
    exact hpt ▸ ⟨h2 st hst, le_refl now⟩
  · exact clockInv_resumeOp ⟨h1, h2, h3⟩ unpauseOk htot

lemma step_clockInv {s : Session} {now : ℚ} {s2 : Session}
    (hstep : Step s now s2) (h : ClockInv s now) : ClockInv s2 now := by
  cases hstep with
  | play path loadOk => exact clockInv_playPath h path loadOk
  | toggle u total htot => exact clockInv_togglePause h u htot
  | seek pos total hpos htot => exact clockInv_seekTo h hpos htot
  | stop => exact clockInv_stopOp h
  | accum fz => exact clockInv_accumulate h fz
  | loopEnd => exact clockInv_loopRestart h

lemma reach_clockInv {s : Session} {t : ℚ} (hr : Reach s t) : ClockInv s t := by
  induction hr with
  | init stats0 t0 h0 =>
      refine ⟨rfl, ?_, ?_⟩
      · rintro st hst
        cases hst
      · rintro st pt hst hpt
        cases hst
  | step hr hle hs ih => exact step_clockInv hs (ih.mono hle)
  | tick hr hle ih => exact ih.mono hle

lemma accumulateSome_stats_apply (s : Session) (path : FileName) (now : ℚ)
    (fz : Bool) (k : FileName) :
    (accumulateSome s path now fz).stats k =
      if k = path then
        { s.stats path with
          secondsListened :=
            (s.stats path).secondsListened + max 0 (manualElapsed s now) }
      else s.stats k := by
  cases fz <;> rfl

lemma manualElapsed_nonneg {s : Session} {t : ℚ} (h : ClockInv s t) :
    0 ≤ manualElapsed s t := by
  obtain ⟨h1, h2, h3⟩ := h
  unfold manualElapsed
  cases hst : s.startTime with
  | none => exact le_refl 0
  | some st =>
    split_ifs with hcond
    · rcases Bool.and_eq_true_iff.mp hcond with ⟨hpau, hptT⟩
      cases hpt : s.pauseTime with
      | none => rw [hpt] at hptT; exact absurd hptT (by simp [optTruthy])
      | some pt =>
        have hle := (h3 st pt hst hpt).1
        simp only [Option.getD_some, h1]
        show (0 : ℚ) ≤ (pt - st) + 0
        linarith
    · have hle := h2 st hst
      rw [h1]
      show (0 : ℚ) ≤ (t - st) + 0
      linarith

/-- C4 (amended): on every reachable session the elapsed value the clock
computes is never negative (the backend `get_pos` fallback, used only while
the backend reports busy, is nonnegative), the listening-time accumulation
only ever adds a nonnegative amount, and the progress-bar fraction is
clamped to at most `1`. The elapsed value itself, however, is not clamped
to the known total duration — see `elapsed_can_exceed_known_duration`. -/
theorem elapsed_nonneg_and_frac_clamped {s : Session} {t : ℚ}
    (hr : Reach s t) (bp total : ℚ) (hbp : 0 ≤ bp) (fz : Bool)
    (k : FileName) :
    0 ≤ posSec s t bp ∧
    (updateProgressDisplay s t bp total).2 ≤ 1 ∧
    (s.stats k).secondsListened ≤
      ((accumulate s t fz).stats k).secondsListened := by
  have hinv := reach_clockInv hr
  have hme := manualElapsed_nonneg hinv
  have hpos : 0 ≤ posSec s t bp := by
    unfold posSec
    cases hst : s.startTime with
    | none => exact hbp
    | some st => exact hme
  refine ⟨hpos, ?_, ?_⟩
  · unfold updateProgressDisplay
    split_ifs
    · exact min_le_left 1 _
    · exact zero_le_one
  · unfold accumulate
    cases hpp : s.playingPath with
    | none => exact le_refl _
    | some path =>
      rw [accumulateSome_stats_apply]
      split_ifs with hk
      · subst hk
        show (s.stats k).secondsListened ≤
          (s.stats k).secondsListened + max 0 (manualElapsed s t)
        have hmx : 0 ≤ max 0 (manualElapsed s t) := le_max_left 0 _
        linarith
      · exact le_refl _

/-- The fresh session state built in `__init__` (ui.py lines 270-285), with
empty stats. -/
def session0 : Session := ⟨none, false, none, none, 0, fun _ => Stats.zero⟩

/-- Witness for the amended C4 at the initial session and time `1`. -/
theorem elapsed_nonneg_and_frac_clamped_witness :
    0 ≤ posSec session0 1 0 ∧
    (updateProgressDisplay session0 1 0 50).2 ≤ 1 ∧
    (session0.stats "a.mp3".data).secondsListened ≤
      ((accumulate session0 1 true).stats "a.mp3".data).secondsListened :=
  elapsed_nonneg_and_frac_clamped
    (Reach.init (fun _ => Stats.zero) 1 one_pos) 0 50 (le_refl 0) true
    "a.mp3".data

/-- The session reached by starting playback of `a.mp3` at wall-clock `1`
from the fresh state. -/
def cexSession : Session := playPath session0 "a.mp3".data 1 true

/-- C4 counterexample: at wall-clock `100` the reachable session that began
playing at wall-clock `1` computes elapsed `99` although the known total
duration is `50`; the displayed elapsed time and the accumulated
`seconds_listened` both exceed the known duration, so the claim's
clamp-to-duration half fails on the code. -/
theorem elapsed_can_exceed_known_duration :
    Reach cexSession 100 ∧
    cexSession.playingPath = some "a.mp3".data ∧
    cexSession.paused = false ∧
    (updateProgressDisplay cexSession 100 0 50).1 = 99 ∧
    ¬((updateProgressDisplay cexSession 100 0 50).1 ≤ 50) ∧
    ((accumulate cexSession 100 true).stats "a.mp3".data).secondsListened
      = 99 := by
  have hd1 : (updateProgressDisplay cexSession 100 0 50).1 = 99 := by
    show ((100 : ℚ) - 1) + 0 = 99
    norm_num
  refine ⟨?_, rfl, rfl, hd1, ?_, ?_⟩
  · have h1 : Reach cexSession 1 :=
      Reach.step (Reach.init (fun _ => Stats.zero) 1 one_pos) (le_refl 1)
        (Step.play session0 1 "a.mp3".data true)
    exact Reach.tick h1 (by norm_num)
  · rw [hd1]
    norm_num
  · show (0 : ℚ) + max 0 (((100 : ℚ) - 1) + 0) = 99
    norm_num [max_def]

/-- The three seek strategies `seek_to` can try (audio.py lines 100-135):
`set_pos`, `play` with a start offset, and a plain restart from zero. -/
inductive SeekMethod
  | setPos
  | playStart
  | restartZero
deriving DecidableEq

/-- The ordered list of backend methods `seek_to` attempts (ui.py lines
3078-3082): `seek_set_pos`, on failure `seek_play_start`, on failure
`restart_playback`; `b1`, `b2` are the outcomes of the first two. -/
def seekAttempts (b1 b2 : Bool) : List SeekMethod :=
  if b1 then [SeekMethod.setPos]
  else if b2 then [SeekMethod.setPos, SeekMethod.playStart]
  else [SeekMethod.setPos, SeekMethod.playStart, SeekMethod.restartZero]

/-- C5: while a track is playing, `seek_to(pos)` clamps `pos` to the known
total duration when one is available, tries the backend methods in the
fixed order direct position-set, play-with-start-offset, restart-from-zero
(stopping at the first success), and regardless of the backend outcomes
sets the manual base to `now - pos`, so the computed elapsed immediately
equals the clamped position; in particular `pos > total` yields elapsed
`= total`. -/
theorem seek_clamps_and_resets_clock (s : Session) (p : FileName)
    (pos now total bp : ℚ) (hp : s.playingPath = some p) (b1 b2 : Bool) :
    (seekTo s pos now total).startTime = some (now - seekClamp pos total) ∧
    posSec (seekTo s pos now total) now bp = seekClamp pos total ∧
    (total ≠ 0 → pos > total →
      posSec (seekTo s pos now total) now bp = total) ∧
    ∃ k, 1 ≤ k ∧ seekAttempts b1 b2 =
      [SeekMethod.setPos, SeekMethod.playStart,
        SeekMethod.restartZero].take k := by
  have hne : ¬(s.playingPath = none) := by rw [hp]; simp
  have hseek : seekTo s pos now total =
      { s with startTime := some (now - seekClamp pos total),
               pauseTime := none, pausedOffset := 0, paused := false } := by
    unfold seekTo
    rw [if_neg hne]
  have hps : posSec (seekTo s pos now total) now bp = seekClamp pos total := by
    rw [hseek]
    show (now - (now - seekClamp pos total)) + 0 = seekClamp pos total
    ring
  refine ⟨by rw [hseek], hps, ?_, ?_⟩
  · intro hnz hgt
    rw [hps]
    unfold seekClamp
    rw [if_pos ⟨hnz, hgt⟩]
  · cases b1 with
    | true => exact ⟨1, le_refl 1, rfl⟩
    | false =>
      cases b2 with
      | true => exact ⟨2, by norm_num, rfl⟩
      | false => exact ⟨3, by norm_num, rfl⟩

/-- A session that is mid-playback of `a.mp3` with manual base `1`. -/
def sessionP : Session :=
  ⟨some "a.mp3".data, false, some 1, none, 0, fun _ => Stats.zero⟩

/-- Witness for C5: seeking to `70` in a `50`-second track at wall-clock
`10`, with both direct backend methods failing. -/
theorem seek_clamps_and_resets_clock_witness :
    (seekTo sessionP 70 10 50).startTime = some (10 - seekClamp 70 50) ∧
    posSec (seekTo sessionP 70 10 50) 10 0 = seekClamp 70 50 ∧
    ((50 : ℚ) ≠ 0 → (70 : ℚ) > 50 →
      posSec (seekTo sessionP 70 10 50) 10 0 = 50) ∧
    ∃ k, 1 ≤ k ∧ seekAttempts false false =
      [SeekMethod.setPos, SeekMethod.playStart,
        SeekMethod.restartZero].take k :=
  seek_clamps_and_resets_clock sessionP "a.mp3".data 70 10 50 0 rfl
    false false

/-- `toggle_pause` on a playing (non-paused) session records the pause
stamp (ui.py lines 2119-2128). -/
lemma togglePause_pause {s : Session} (hp : ¬(s.playingPath = none))
    (hpau : s.paused = false) (now : ℚ) (uOk : Bool) (total : ℚ) :
    togglePause s now uOk total =
      { s with paused := true, pauseTime := some now } := by
  unfold togglePause
  rw [if_neg hp, hpau]
  rfl

/-- `toggle_pause` on a paused session runs the resume branch. -/
lemma togglePause_resume {s : Session} (hp : ¬(s.playingPath = none))
    (hpau : s.paused = true) (now : ℚ) (uOk : Bool) (total : ℚ) :
    togglePause s now uOk total = resumeOp s now uOk total := by
  unfold togglePause
  rw [if_neg hp, hpau]
  rfl

lemma resumeOp_native (s : Session) (now total : ℚ) :
    resumeOp s now true total = resumeFold { s with paused := false } now :=
  rfl

lemma resumeOp_fallback (s : Session) (now total : ℚ) :
    resumeOp s now false total =
      resumeFold
        { seekTo s (resumeFallbackPos s) now total with paused := false }
        now :=
  rfl

/-- C6: pausing at `t1` and later resuming at `t2` — whether the native
unpause works or the restart-and-seek fallback runs — folds the paused
interval into the clock base: the computed elapsed right after the resume
equals the pre-pause elapsed `t1 - st`, and a later reading at `t3` gives
`(t3 - t2) + (t1 - st)`, excluding the paused interval. -/
theorem pause_resume_elapsed_continuous (s : Session) (p : FileName)
    (st t1 t2 : ℚ) (uOk1 uOk2 : Bool) (total bp : ℚ)
    (hp : s.playingPath = some p) (hpau : s.paused = false)
    (hst : s.startTime = some st) (hoff : s.pausedOffset = 0)
    (h0 : 0 < st) (h1 : st ≤ t1) (h2 : t1 ≤ t2)
    (hin : total = 0 ∨ t1 - st ≤ total) :
    posSec (togglePause (togglePause s t1 uOk1 total) t2 uOk2 total) t2 bp
      = t1 - st ∧
    ∀ t3, posSec (togglePause (togglePause s t1 uOk1 total) t2 uOk2 total)
      t3 bp = (t3 - t2) + (t1 - st) := by
  have hne : ¬(s.playingPath = none) := by rw [hp]; simp
  have hst0 : st ≠ 0 := ne_of_gt h0
  have ht1 : t1 ≠ 0 := ne_of_gt (lt_of_lt_of_le h0 h1)
  have hs1 : togglePause s t1 uOk1 total =
      { s with paused := true, pauseTime := some t1 } :=
    togglePause_pause hne hpau t1 uOk1 total
  have hmain : ∀ t3,
      posSec (togglePause (togglePause s t1 uOk1 total) t2 uOk2 total) t3 bp
        = (t3 - t2) + (t1 - st) := by
    intro t3
    rw [hs1, togglePause_resume (by simpa using hne) rfl t2 uOk2 total]
    cases uOk2 with
    | true =>
      have hro : resumeOp { s with paused := true, pauseTime := some t1 }
          t2 true total =
          { s with paused := false, startTime := some (st + (t2 - t1)),
                   pauseTime := none } := by
        rw [resumeOp_native]
        unfold resumeFold
        rw [if_pos (by simp [optTruthy, hst, ht1, hst0])]
        simp [hst]
      rw [hro]
      show (t3 - (st + (t2 - t1))) + s.pausedOffset = (t3 - t2) + (t1 - st)
      rw [hoff]
      ring
    | false =>
      have hfb : resumeFallbackPos
          { s with paused := true, pauseTime := some t1 } =
          (t1 - st) + s.pausedOffset := by
        unfold resumeFallbackPos
        rw [if_pos (by simp [optTruthy, hst, ht1, hst0])]
        simp [hst]
      have hclamp : seekClamp ((t1 - st) + s.pausedOffset) total =
          (t1 - st) + s.pausedOffset := by
        unfold seekClamp
        rw [if_neg]
        rintro ⟨hnz, hgt⟩
        rw [hoff] at hgt
        rcases hin with rfl | hle2
        · exact hnz rfl
        · simp only [add_zero] at hgt
          linarith
      have hseek2 : seekTo { s with paused := true, pauseTime := some t1 }
          (resumeFallbackPos { s with paused := true, pauseTime := some t1 })
          t2 total =
          { s with startTime := some (t2 - ((t1 - st) + s.pausedOffset)),
                   pauseTime := none, pausedOffset := 0, paused := false } := by
        unfold seekTo
        rw [if_neg (by simpa using hne), hfb, hclamp]
      have hro : resumeOp { s with paused := true, pauseTime := some t1 }
          t2 false total =
          { s with startTime := some (t2 - ((t1 - st) + s.pausedOffset)),
                   pauseTime := none, pausedOffset := 0, paused := false } := by
        rw [resumeOp_fallback, hseek2]
        unfold resumeFold
        rw [if_neg (by simp [optTruthy])]
      rw [hro]
      show (t3 - (t2 - ((t1 - st) + s.pausedOffset))) + 0
        = (t3 - t2) + (t1 - st)
      rw [hoff]
      ring
  exact ⟨by rw [hmain t2]; ring, hmain⟩

/-- Witness for C6: pause at `5`, resume at `9` (fallback path), base `1`,
total `50`. -/
theorem pause_resume_elapsed_continuous_witness :
    posSec (togglePause (togglePause sessionP 5 true 50) 9 false 50) 9 0
      = 5 - 1 ∧
    ∀ t3, posSec (togglePause (togglePause sessionP 5 true 50) 9 false 50)
      t3 0 = (t3 - 9) + (5 - 1) :=
  pause_resume_elapsed_continuous sessionP "a.mp3".data 1 5 9
    true false 50 0 rfl rfl rfl rfl one_pos (by norm_num) (by norm_num)
    (Or.inr (by norm_num))

/-! ### Stats bookkeeping lemmas (for C7) -/

lemma accumulateSome_playingPath (s : Session) (path : FileName) (now : ℚ)
    (fz : Bool) : (accumulateSome s path now fz).playingPath = s.playingPath := by
  cases fz <;> rfl

lemma accumulateSome_startTime_finalize (s : Session) (path : FileName)
    (now : ℚ) : (accumulateSome s path now true).startTime = none := rfl

lemma accumulate_stats_keeps (s : Session) (now : ℚ) (fz : Bool)
    (k : FileName) :
    ((accumulate s now fz).stats k).playCount = (s.stats k).playCount ∧
    ((accumulate s now fz).stats k).lastPlayed = (s.stats k).lastPlayed ∧
    (s.stats k).secondsListened ≤
      ((accumulate s now fz).stats k).secondsListened := by
  unfold accumulate
  cases hpp : s.playingPath with
  | none => exact ⟨rfl, rfl, le_refl _⟩
  | some path =>
    rw [accumulateSome_stats_apply]
    split_ifs with hk
    · subst hk
      refine ⟨rfl, rfl, ?_⟩
      show (s.stats k).secondsListened ≤
        (s.stats k).secondsListened + max 0 (manualElapsed s now)
      have hmx : 0 ≤ max 0 (manualElapsed s now) := le_max_left 0 _
      linarith
    · exact ⟨rfl, rfl, le_refl _⟩

lemma seekTo_stats (s : Session) (pos now total : ℚ) :
    (seekTo s pos now total).stats = s.stats := by
  unfold seekTo
  split_ifs <;> rfl

lemma resumeFold_stats (s : Session) (now : ℚ) :
    (resumeFold s now).stats = s.stats := by
  unfold resumeFold
  split_ifs <;> rfl

lemma resumeOp_stats (s : Session) (now : ℚ) (uOk : Bool) (total : ℚ) :
    (resumeOp s now uOk total).stats = s.stats := by
  cases uOk with
  | true => rw [resumeOp_native, resumeFold_stats]
  | false =>
    rw [resumeOp_fallback, resumeFold_stats]
    show (seekTo s (resumeFallbackPos s) now total).stats = s.stats
    rw [seekTo_stats]

lemma togglePause_stats (s : Session) (now : ℚ) (uOk : Bool) (total : ℚ) :
    (togglePause s now uOk total).stats = s.stats := by
  unfold togglePause
  split_ifs
  · rfl
  · rfl
  · rw [resumeOp_stats]

lemma playPath_stats_apply (s : Session) (path : FileName) (now : ℚ)
    (k : FileName) :
    (playPath s path now true).stats k =
      if k = path then
        { (accumulate s now true).stats path with
          playCount := ((accumulate s now true).stats path).playCount + 1,
          lastPlayed := now }
      else (accumulate s now true).stats k := rfl

/-- C7: `_play_path` bumps the played path's `play_count` by exactly one and
stamps `last_played = now`; a finalizing accumulation resets the timing base
so that a repeated accumulation adds nothing (no double counting across
track-end, stop or switch); and every playback operation leaves each path's
`play_count` and `seconds_listened` non-decreasing. -/
theorem stats_play_count_and_listen_time :
    (∀ s path now, ((playPath s path now true).stats path).playCount =
        (s.stats path).playCount + 1 ∧
      ((playPath s path now true).stats path).lastPlayed = now) ∧
    (∀ s now now2 fz k,
      ((accumulate (accumulate s now true) now2 fz).stats k) =
        ((accumulate s now true).stats k)) ∧
    (∀ s now s2, Step s now s2 → ∀ k,
      (s.stats k).playCount ≤ (s2.stats k).playCount ∧
      (s.stats k).secondsListened ≤ (s2.stats k).secondsListened) := by
  have haccflat : ∀ s : Session, ∀ now now2 : ℚ, ∀ fz : Bool,
      ∀ k : FileName,
      ((accumulate (accumulate s now true) now2 fz).stats k) =
        ((accumulate s now true).stats k) := by
    intro s now now2 fz k
    cases hpp : s.playingPath with
    | none =>
      have hsame : accumulate s now true = s := by
        unfold accumulate
        rw [hpp]
      rw [hsame]
      unfold accumulate
      rw [hpp]
    | some path =>
      have hs1 : accumulate s now true = accumulateSome s path now true := by
        unfold accumulate
        rw [hpp]
      rw [hs1]
      have hpp2 : (accumulateSome s path now true).playingPath = some path :=
        (accumulateSome_playingPath s path now true).trans hpp
      unfold accumulate
      rw [hpp2, accumulateSome_stats_apply]
      have hme : manualElapsed (accumulateSome s path now true) now2 = 0 := by
        unfold manualElapsed
        rw [accumulateSome_startTime_finalize]
      rw [hme]
      split_ifs with hk
      · subst hk
        rw [max_self, add_zero]
      · rfl
  refine ⟨?_, haccflat, ?_⟩
  · intro s path now
    rw [playPath_stats_apply, if_pos rfl]
    have hk := accumulate_stats_keeps s now true path
    exact ⟨by rw [hk.1], rfl⟩
  · intro s now s2 hstep k
    cases hstep with
    | play path loadOk =>
      have hacc := accumulate_stats_keeps s now true k
      cases loadOk with
      | false =>
        show (s.stats k).playCount ≤ ((accumulate s now true).stats k).playCount ∧ _
        exact ⟨le_of_eq hacc.1.symm, hacc.2.2⟩
      | true =>
        rw [playPath_stats_apply]
        split_ifs with hkp
        · subst hkp
          constructor
          · show (s.stats k).playCount ≤
              ((accumulate s now true).stats k).playCount + 1
            rw [hacc.1]
            omega
          · exact hacc.2.2
        · exact ⟨le_of_eq hacc.1.symm, hacc.2.2⟩
    | toggle u total htot =>
      rw [togglePause_stats]
      exact ⟨le_refl _, le_refl _⟩
    | seek pos total hpos htot =>
      rw [seekTo_stats]
      exact ⟨le_refl _, le_refl _⟩
    | stop =>
      have hacc := accumulate_stats_keeps s now true k
      show (s.stats k).playCount ≤ ((accumulate s now true).stats k).playCount ∧ _
      exact ⟨le_of_eq hacc.1.symm, hacc.2.2⟩
    | accum fz =>
      have hacc := accumulate_stats_keeps s now fz k
      exact ⟨le_of_eq hacc.1.symm, hacc.2.2⟩
    | loopEnd =>
      exact ⟨le_refl _, le_refl _⟩

/-- Witness for C7 at a concrete session, path and step. -/
theorem stats_play_count_and_listen_time_witness :
    (((playPath sessionP "b.ogg".data 3 true).stats "b.ogg".data).playCount =
        (sessionP.stats "b.ogg".data).playCount + 1 ∧
      ((playPath sessionP "b.ogg".data 3 true).stats "b.ogg".data).lastPlayed
        = 3) ∧
    ((accumulate (accumulate sessionP 3 true) 4 true).stats "b.ogg".data =
      (accumulate sessionP 3 true).stats "b.ogg".data) ∧
    ((sessionP.stats "b.ogg".data).playCount ≤
        ((stopOp sessionP 3).stats "b.ogg".data).playCount ∧
      (sessionP.stats "b.ogg".data).secondsListened ≤
        ((stopOp sessionP 3).stats "b.ogg".data).secondsListened) :=
  ⟨stats_play_count_and_listen_time.1 sessionP "b.ogg".data 3,
   stats_play_count_and_listen_time.2.1 sessionP 3 4 true "b.ogg".data,
   stats_play_count_and_listen_time.2.2 sessionP 3 (stopOp sessionP 3)
     (Step.stop sessionP 3) "b.ogg".data⟩

/-! ### Play-mode policy (`_on_track_end`, ui.py lines 2318-2368) -/

/-- The shuffle candidate pool (ui.py lines 2321-2325): all library paths
other than the playing one, falling back to the whole library when that
filter leaves nothing; `random.choice` then picks an element of this pool. -/
def shuffleCandidates (lib : List FileName) (cur : FileName) :
    List FileName :=
  let cands := lib.filter (fun p => p != cur)
  if cands.isEmpty then lib else cands

/-- C8: when a track ends in shuffle mode, every element of the candidate
pool (hence any random choice from it) differs from the current path
whenever the duplicate-free library holds at least two tracks; a one-track
library yields exactly its single track, repeating it. -/
theorem shuffle_pick_avoids_current (lib : List FileName) (cur : FileName) :
    (lib.Nodup → 2 ≤ lib.length →
      ∀ x ∈ shuffleCandidates lib cur, x ≠ cur) ∧
    (∀ t, lib = [t] → shuffleCandidates lib cur = [t]) := by
  constructor
  · intro hnd hlen x hx
    obtain ⟨a, b, rest, rfl⟩ : ∃ a b rest, lib = a :: b :: rest := by
      cases lib with
      | nil => simp at hlen
      | cons a t =>
        cases t with
        | nil => simp at hlen
        | cons b rest => exact ⟨a, b, rest, rfl⟩
    have hab : a ≠ b := by
      intro h
      exact (List.nodup_cons.mp hnd).1 (h ▸ List.mem_cons_self b rest)
    have hex : ∃ y ∈ a :: b :: rest, y ≠ cur := by
      by_cases ha : a = cur
      · exact ⟨b, by simp, fun hb => hab (by rw [ha, hb])⟩
      · exact ⟨a, by simp, ha⟩
    obtain ⟨y, hy, hyne⟩ := hex
    have hymem : y ∈ (a :: b :: rest).filter (fun p => p != cur) :=
      List.mem_filter.mpr ⟨hy, by simpa using hyne⟩
    have hne : ¬(((a :: b :: rest).filter (fun p => p != cur)).isEmpty
        = true) := by
      intro hempty
      rw [List.isEmpty_iff] at hempty
      rw [hempty] at hymem
      simp at hymem
    unfold shuffleCandidates at hx
    rw [if_neg hne] at hx
    simpa using (List.mem_filter.mp hx).2
  · rintro t rfl
    unfold shuffleCandidates
    by_cases ht : t = cur
    · rw [show ([t].filter (fun p => p != cur)) = [] by simp [ht]]
      rfl
    · rw [show ([t].filter (fun p => p != cur)) = [t] by simp [ht]]
      rfl

/-- Witness for C8 with a two-track library and a one-track library. -/
theorem shuffle_pick_avoids_current_witness :
    (([("a.mp3".data : FileName), "b.ogg".data].Nodup →
      2 ≤ [("a.mp3".data : FileName), "b.ogg".data].length →
      ∀ x ∈ shuffleCandidates ["a.mp3".data, "b.ogg".data] "a.mp3".data,
        x ≠ "a.mp3".data) ∧
    (∀ t, [("a.mp3".data : FileName), "b.ogg".data] = [t] →
      shuffleCandidates ["a.mp3".data, "b.ogg".data] "a.mp3".data = [t])) ∧
    (∀ t, [("c.mp3".data : FileName)] = [t] →
      shuffleCandidates ["c.mp3".data] "c.mp3".data = [t]) :=
  ⟨shuffle_pick_avoids_current ["a.mp3".data, "b.ogg".data] "a.mp3".data,
   (shuffle_pick_avoids_current ["c.mp3".data] "c.mp3".data).2⟩

/-- What the sequential branch decides to do next. -/
inductive NextAction
  | halt
  | advance (p : FileName)
deriving DecidableEq

/-- The index-scan loop of the sequential branch (ui.py lines 2346-2351):
the first index whose path equals the playing one, `none` otherwise. -/
def findIndex (cur : FileName) : List FileName → Option Nat
  | [] => none
  | p :: rest =>
    if p = cur then some 0 else (findIndex cur rest).map (· + 1)

/-- The sequential branch of `_on_track_end` (ui.py lines 2344-2368): stop
when the playing path is not in the visible list (`cur_index is None`) or
`next_index >= len(...)`; else play the entry at `next_index`. -/
def sequentialNext (visible : List FileName) (cur : FileName) : NextAction :=
  match findIndex cur visible with
  | none => NextAction.halt
  | some i =>
    match visible[i+1]? with
    | none => NextAction.halt
    | some nxt => NextAction.advance nxt

lemma findIndex_eq_none_iff (cur : FileName) :
    ∀ l : List FileName, findIndex cur l = none ↔ cur ∉ l := by
  intro l
  induction l with
  | nil => simp [findIndex]
  | cons p rest ih =>
    unfold findIndex
    split_ifs with hp
    · subst hp
      simp
    · simp only [Option.map_eq_none', ih, List.mem_cons]
      constructor
      · intro hni hor
        rcases hor with rfl | hmem
        · exact hp rfl
        · exact hni hmem
      · intro hor hmem
        exact hor (Or.inr hmem)

lemma findIndex_of_nodup_get (cur : FileName) :
    ∀ l : List FileName, ∀ i : ℕ, ∀ h : i < l.length,
      l.Nodup → l.get ⟨i, h⟩ = cur → findIndex cur l = some i := by
  intro l
  induction l with
  | nil => intro i h; simp at h
  | cons p rest ih =>
    intro i h hnd hget
    obtain ⟨hp, hrest⟩ := List.nodup_cons.mp hnd
    unfold findIndex
    split_ifs with hpc
    · cases i with
      | zero => rfl
      | succ j =>
        exfalso
        apply hp
        have hj : j < rest.length := Nat.lt_of_succ_lt_succ h
        have hgr : rest.get ⟨j, hj⟩ = cur := by simpa using hget
        rw [hpc, ← hgr]
        exact rest.get_mem _ _
    · cases i with
      | zero => exact absurd hget hpc
      | succ j =>
        have hj : j < rest.length := Nat.lt_of_succ_lt_succ h
        have hgr : rest.get ⟨j, hj⟩ = cur := by simpa using hget
        rw [ih j hj hrest hgr]
        rfl

/-- C9: when a track ends in sequential mode, a current path absent from
the visible list stops playback; a current path at (duplicate-free) index
`i` with a successor advances to index `i + 1`; and a current path that is
the last element stops playback. -/
theorem sequential_next_policy (visible : List FileName) (cur : FileName) :
    (cur ∉ visible → sequentialNext visible cur = NextAction.halt) ∧
    (∀ i : ℕ, ∀ h : i < visible.length, ∀ h2 : i + 1 < visible.length,
      visible.Nodup → visible.get ⟨i, h⟩ = cur →
      sequentialNext visible cur =
        NextAction.advance (visible.get ⟨i + 1, h2⟩)) ∧
    (visible.Nodup → visible.getLast? = some cur →
      sequentialNext visible cur = NextAction.halt) := by
  refine ⟨?_, ?_, ?_⟩
  · intro hnm
    unfold sequentialNext
    rw [(findIndex_eq_none_iff cur visible).mpr hnm]
  · intro i h h2 hnd hget
    unfold sequentialNext
    rw [findIndex_of_nodup_get cur visible i h hnd hget]
    show (match visible[i + 1]? with
      | none => NextAction.halt
      | some nxt => NextAction.advance nxt) =
        NextAction.advance (visible.get ⟨i + 1, h2⟩)
    rw [List.getElem?_eq_getElem h2]
    rfl
  · intro hnd hlast
    have hnil : visible ≠ [] := by
      intro hnil
      rw [hnil] at hlast
      simp at hlast
    have hlen : 0 < visible.length := List.length_pos.mpr hnil
    have hidx : visible.length - 1 < visible.length := by omega
    have hget : visible.get ⟨visible.length - 1, hidx⟩ = cur := by
      rw [List.getLast?_eq_getElem?] at hlast
      rw [List.getElem?_eq_getElem hidx] at hlast
      exact Option.some_injective _ hlast
    unfold sequentialNext
    rw [findIndex_of_nodup_get cur visible _ hidx hnd hget]
    have hlen1 : visible.length - 1 + 1 = visible.length := by omega
    show (match visible[visible.length - 1 + 1]? with
      | none => NextAction.halt
      | some nxt => NextAction.advance nxt) = NextAction.halt
    rw [hlen1, List.getElem?_eq_none (le_refl _)]

/-- Witness for C9 on the three-track list `[a, b, c]`. -/
theorem sequential_next_policy_witness :
    (("z.mp3".data : FileName) ∉
        [("a.mp3".data : FileName), "b.ogg".data, "c.mp3".data] →
      sequentialNext ["a.mp3".data, "b.ogg".data, "c.mp3".data] "z.mp3".data
        = NextAction.halt) ∧
    (∀ i : ℕ,
      ∀ h : i < [("a.mp3".data : FileName), "b.ogg".data,
        "c.mp3".data].length,
      ∀ h2 : i + 1 < [("a.mp3".data : FileName), "b.ogg".data,
        "c.mp3".data].length,
      [("a.mp3".data : FileName), "b.ogg".data, "c.mp3".data].Nodup →
      [("a.mp3".data : FileName), "b.ogg".data, "c.mp3".data].get ⟨i, h⟩ =
        "z.mp3".data →
      sequentialNext ["a.mp3".data, "b.ogg".data, "c.mp3".data] "z.mp3".data
        = NextAction.advance
          ([("a.mp3".data : FileName), "b.ogg".data,
            "c.mp3".data].get ⟨i + 1, h2⟩)) ∧
    ([("a.mp3".data : FileName), "b.ogg".data, "c.mp3".data].Nodup →
      [("a.mp3".data : FileName), "b.ogg".data, "c.mp3".data].getLast? =
        some "z.mp3".data →
      sequentialNext ["a.mp3".data, "b.ogg".data, "c.mp3".data] "z.mp3".data
        = NextAction.halt) :=
  sequential_next_policy ["a.mp3".data, "b.ogg".data, "c.mp3".data]
    "z.mp3".data

/-! ### Cache persistence (`_load_cache` / `_save_cache`, ui.py lines
1550-1625) -/

/-- One record of the persisted cache file's `items` array. `path = none`
models a record lacking the key (whose `rec['path']` raises inside the
per-record `try`, skipping the record). -/
structure CacheRec where
  path : Option FileName
  folderTitle : Option FileName
  meta : Option Meta
deriving DecidableEq

/-- Loading one record (ui.py lines 1579-1590): skip it when the path key
is missing or the path no longer exists on disk; fall back to the
normalized parent folder name when `folder_title` is absent or empty
(Python `or` truthiness). `ex` is `Path.exists`; `parentTitle` is
`strip_leading_numbers(p.parent.name)`. -/
def loadRec (ex : FileName → Bool) (parentTitle : FileName → FileName)
    (rec : CacheRec) : Option (FileName × FileName × Option Meta) :=
  match rec.path with
  | none => none
  | some p =>
    if ex p then
      some (p,
        (match rec.folderTitle with
          | none => parentTitle p
          | some t => if t.isEmpty then parentTitle p else t),
        rec.meta)
    else none

/-- The record loop of `_load_cache` (ui.py lines 1577-1591): the list of
`(path, folder_title, meta)` entries that survive loading. -/
def loadCache (ex : FileName → Bool) (parentTitle : FileName → FileName)
    (items : List CacheRec) : List (FileName × FileName × Option Meta) :=
  items.filterMap (loadRec ex parentTitle)

/-- `_save_cache` (ui.py lines 1594-1612): one record per `all_mp3_paths`
entry, attaching the metadata dict when present and truthy. -/
def saveCache (entries : List (FileName × FileName))
    (md : FileName → Option Meta) : List CacheRec :=
  entries.map (fun e =>
    ⟨some e.1, some e.2,
      match md e.1 with
      | none => none
      | some m => if m.nonempty then some m else none⟩)

lemma loadRec_some {ex : FileName → Bool}
    {parentTitle : FileName → FileName} {rec : CacheRec}
    {e : FileName × FileName × Option Meta}
    (h : loadRec ex parentTitle rec = some e) : ex e.1 = true := by
  obtain ⟨op, oft, om⟩ := rec
  cases op with
  | none => cases h
  | some p =>
    simp only [loadRec] at h
    split_ifs at h with hex
    cases h
    exact hex

/-- C10: loading the persisted cache drops every record whose path is
missing on disk — each loaded entry's path exists (the loader is a total
function over arbitrary records, so a stale or malformed entry is skipped,
never an error), a stale path contributes zero entries, and the next save
(which writes only the surviving entries) does not write the stale path
back. -/
theorem stale_cache_entries_dropped (items : List CacheRec)
    (ex : FileName → Bool) (parentTitle : FileName → FileName)
    (md : FileName → Option Meta) (stale : FileName)
    (hstale : ex stale = false) :
    (∀ e ∈ loadCache ex parentTitle items, ex e.1 = true) ∧
    (∀ e ∈ loadCache ex parentTitle items, e.1 ≠ stale) ∧
    (∀ r ∈ saveCache ((loadCache ex parentTitle items).map
        (fun e => (e.1, e.2.1))) md, r.path ≠ some stale) := by
  have hall : ∀ e ∈ loadCache ex parentTitle items, ex e.1 = true := by
    intro e he
    obtain ⟨rec, _, hrec⟩ := List.mem_filterMap.mp he
    exact loadRec_some hrec
  have hne : ∀ e ∈ loadCache ex parentTitle items, e.1 ≠ stale := by
    intro e he heq
    have hx := hall e he
    rw [heq] at hx
    rw [hx] at hstale
    cases hstale
  refine ⟨hall, hne, ?_⟩
  intro r hr
  obtain ⟨pe, hpe, hper⟩ := List.mem_map.mp hr
  obtain ⟨e, he, hee⟩ := List.mem_map.mp hpe
  intro hrs
  rw [← hper] at hrs
  simp only at hrs
  apply hne e he
  have : pe.1 = stale := Option.some_injective _ hrs
  rw [← this, ← hee]

/-- Witness for C10: one stale record (path gone from disk) loads to zero
entries and is not saved back. -/
theorem stale_cache_entries_dropped_witness :
    (∀ e ∈ loadCache (fun _ => false) (fun p => p)
        [⟨some "gone.mp3".data, none, none⟩], (fun _ => false) e.1 = true) ∧
    (∀ e ∈ loadCache (fun _ => false) (fun p => p)
        [⟨some "gone.mp3".data, none, none⟩], e.1 ≠ "gone.mp3".data) ∧
    (∀ r ∈ saveCache ((loadCache (fun _ => false) (fun p => p)
        [⟨some "gone.mp3".data, none, none⟩]).map (fun e => (e.1, e.2.1)))
        (fun _ => none), r.path ≠ some "gone.mp3".data) :=
  stale_cache_entries_dropped [⟨some "gone.mp3".data, none, none⟩]
    (fun _ => false) (fun p => p) (fun _ => none) "gone.mp3".data rfl

end Osutify
